import Mathlib

/-!
Verification of the task-mining core: a shallow embedding of the
activity logger (SQLite-backed usage store), the event-listener
tracker threads, the sequence-pattern miner and the automation
candidate scorer, together with theorems settling the specified
properties.

Conventions of the embedding:
* machine time is modelled in integer milliseconds; Python's
  `(a - b).total_seconds()` comparisons translate to millisecond
  comparisons, and `int(elapsed_seconds)` on a positive value is
  integer division of the millisecond difference by 1000;
* the SQLite `app_usage` table is a `List UsageRow` in insertion
  (rowid) order; `ORDER BY` is modelled by the stable
  `List.insertionSort`;
* Python's stable `list.sort` / `sorted(..., reverse=True)` and
  `collections.Counter` (a dict preserving first-insertion key order)
  are modelled by `List.insertionSort` with a total preorder and by an
  association list built left to right.
-/

namespace TaskMining

open List

/-! ## ActivityLogger: the `app_usage` table (`src/activity_logger.py`) -/

/-- A row of the `app_usage` table: `(date TEXT, application TEXT,
duration_seconds INTEGER)`. -/
structure UsageRow where
  date : String
  application : String
  duration_seconds : Int
deriving DecidableEq

/-- The `WHERE date = ? AND application = ?` key predicate. -/
def keyMatch (date application : String) (r : UsageRow) : Bool :=
  r.date == date && r.application == application

/-- `ActivityLogger.update_app_usage`: `SELECT duration_seconds ... fetchone`
(first matching row), then either `UPDATE ... SET duration_seconds =
current + delta WHERE date = ? AND application = ?` (which rewrites every
matching row) or `INSERT` of a fresh row at the end of the table. -/
def update_app_usage (table : List UsageRow) (application : String)
    (duration_seconds : Int) (date : String) : List UsageRow :=
  match table.find? (keyMatch date application) with
  | some r0 =>
      table.map (fun r =>
        if keyMatch date application r then
          { r with duration_seconds := r0.duration_seconds + duration_seconds }
        else r)
  | none => table ++ [⟨date, application, duration_seconds⟩]

/-- Strict lexicographic order on codepoint lists — the comparison SQLite
applies to TEXT values (byte order; on the ASCII dates and timestamps
stored here, codepoint order and byte order agree). -/
def bytesLt : List ℕ → List ℕ → Bool
  | [], [] => false
  | [], _ :: _ => true
  | _ :: _, [] => false
  | a :: as, b :: bs => if a < b then true else if b < a then false else bytesLt as bs

/-- SQLite TEXT `<` on strings. -/
def strLt (s t : String) : Bool :=
  bytesLt (s.data.map Char.toNat) (t.data.map Char.toNat)

/-- SQLite TEXT `<=` on strings (`s <= t` iff not `t < s`). -/
def strLe (s t : String) : Prop := strLt t s = false

instance (s t : String) : Decidable (strLe s t) :=
  inferInstanceAs (Decidable (strLt t s = false))

lemma bytesLt_asymm : ∀ a b : List ℕ, bytesLt a b = true → bytesLt b a = false := by
  intro a
  induction a with
  | nil =>
      intro b hb
      cases b with
      | nil => simp [bytesLt] at hb
      | cons y ys => simp [bytesLt]
  | cons x xs ih =>
      intro b hb
      cases b with
      | nil => simp [bytesLt] at hb
      | cons y ys =>
          simp only [bytesLt] at hb ⊢
          split_ifs at hb ⊢ with h1 h2 <;> first | rfl | omega | exact ih ys hb

lemma bytesLt_trans_or : ∀ (a b c : List ℕ),
    bytesLt c a = true → bytesLt c b = true ∨ bytesLt b a = true := by
  intro a
  induction a with
  | nil =>
      intro b c h
      cases c <;> simp [bytesLt] at h
  | cons x xs ih =>
      intro b c h
      cases c with
      | nil =>
          cases b with
          | nil => exact Or.inr (by simp [bytesLt])
          | cons y ys => exact Or.inl (by simp [bytesLt])
      | cons z zs =>
          cases b with
          | nil => exact Or.inr (by simp [bytesLt])
          | cons y ys =>
              simp only [bytesLt] at h ⊢
              by_cases hzy : z < y
              · left
                rw [if_pos hzy]
              · by_cases hyx : y < x
                · right
                  rw [if_pos hyx]
                · rw [if_neg hzy, if_neg hyx]
                  split_ifs at h ⊢ with h1 h2 h3 h4 <;>
                    first
                      | exact Or.inl rfl
                      | exact Or.inr rfl
                      | omega
                      | exact ih ys zs h

lemma strLe_total (s t : String) : strLe s t ∨ strLe t s := by
  unfold strLe
  cases h : strLt t s with
  | false => exact Or.inl rfl
  | true => exact Or.inr (bytesLt_asymm _ _ h)

lemma strLe_trans {s t u : String} (h1 : strLe s t) (h2 : strLe t u) :
    strLe s u := by
  unfold strLe strLt at h1 h2 ⊢
  by_contra hc
  rw [Bool.not_eq_false] at hc
  rcases bytesLt_trans_or (s.data.map Char.toNat) (t.data.map Char.toNat)
      (u.data.map Char.toNat) hc with h | h
  · rw [h2] at h
    exact Bool.false_ne_true h
  · rw [h1] at h
    exact Bool.false_ne_true h

/-- Ordering used by `ORDER BY date DESC` (most recent date first); ties
keep table order because the modelling sort is stable. -/
def usageDateGe (r1 r2 : UsageRow) : Prop := strLe r2.date r1.date

instance : DecidableRel usageDateGe :=
  fun a b => inferInstanceAs (Decidable (strLe b.date a.date))

instance : IsTotal UsageRow usageDateGe :=
  ⟨fun a b => (strLe_total b.date a.date).elim Or.inl Or.inr⟩

instance : IsTrans UsageRow usageDateGe :=
  ⟨fun _ _ _ h h2 => strLe_trans h2 h⟩

/-- `ActivityLogger.get_app_usage`: for `days > 1` it runs
`SELECT ... WHERE date <= ? ORDER BY date DESC LIMIT ?` with `days` as the
`LIMIT`; otherwise `SELECT ... WHERE date = ?` (no ordering clause). -/
def get_app_usage (table : List UsageRow) (date : String) (days : ℕ) :
    List UsageRow :=
  if 1 < days then
    (insertionSort usageDateGe
      (table.filter (fun r => decide (strLe r.date date)))).take days
  else
    table.filter (fun r => r.date == date)

/-- Total stored seconds for one `(date, application)` key. -/
def totalFor (table : List UsageRow) (date application : String) : Int :=
  ((table.filter (keyMatch date application)).map (·.duration_seconds)).sum

/-- The one-row-per-`(date, application)` invariant of the `app_usage`
table (the spec data model; it is preserved by `update_app_usage`). -/
def keysNodup (table : List UsageRow) : Prop :=
  (table.map (fun r => (r.date, r.application))).Nodup

instance (table : List UsageRow) : Decidable (keysNodup table) :=
  inferInstanceAs
    (Decidable ((table.map (fun r : UsageRow => (r.date, r.application))).Nodup))

/-! ## EventListener: the tracker (`src/event_listener.py`)

Times are integer milliseconds.  The single date used by
`update_app_usage(date=None)` during a run is the constant `runDate`
(`get_current_date()` is constant within a session).  Screenshot capture
is an external side effect carrying no tracked state and is elided. -/

/-- The date stamped on usage rows during a tracker run. -/
def runDate : String := "2024-01-01"

/-- A `user_events` row as appended by `log_user_event` (details and
screenshot columns elided; no claim mentions them). -/
structure ActivityEvent where
  timestamp : Int
  window_title : String
  application : String
  event_type : String
deriving DecidableEq

/-- In-memory listener state: `active_window` (title, application,
last_update) plus `last_input_time`, together with the observable
effects — the appended `user_events` rows, the chronological list of
`update_app_usage` calls issued (application, whole seconds), and the
`app_usage` table they act on. -/
structure ListenerState where
  title : String
  application : String
  last_update : Option Int
  last_input_time : Option Int
  events : List ActivityEvent
  usage_calls : List (String × Int)
  table : List UsageRow
deriving DecidableEq

/-- `EventListener.__init__`: empty window info, no `last_update`, no
`last_input_time`. -/
def initListener : ListenerState :=
  ⟨"", "", none, none, [], [], []⟩

/-- `ActivityLogger.log_user_event`: append one row to `user_events`. -/
def log_user_event (now : Int) (window_title application event_type : String)
    (st : ListenerState) : ListenerState :=
  { st with events := st.events ++ [⟨now, window_title, application, event_type⟩] }

/-- One `self.logger.update_app_usage(application, duration_seconds)` call:
recorded in the call trace and applied to the `app_usage` table with
`date = runDate`. -/
def issueUsage (application : String) (duration_seconds : Int)
    (st : ListenerState) : ListenerState :=
  { st with
      usage_calls := st.usage_calls ++ [(application, duration_seconds)]
      table := update_app_usage st.table application duration_seconds runDate }

/-- `EventListener._on_window_change`: log a `window_change` event; if
`last_update` is set and `elapsed_time > 0` (checked on the raw, un-floored
elapsed value) and the previous application name is non-empty, flush
`int(elapsed_time)` seconds to the previous application; then replace
`active_window` with the new window and `last_update = now`.  There is no
idle-threshold check on this path. -/
def onWindowChange (now : Int) (window_title application : String)
    (st : ListenerState) : ListenerState :=
  let st1 := log_user_event now window_title application "window_change" st
  let st2 :=
    match st1.last_update with
    | some lu =>
        if 0 < now - lu ∧ st1.application ≠ "" then
          issueUsage st1.application ((now - lu) / 1000) st1
        else st1
    | none => st1
  { st2 with title := window_title, application := application,
             last_update := some now }

/-- One iteration of `EventListener._check_active_window`: compare the
observed foreground window with `active_window`; on a difference run
`_on_window_change`; otherwise, if there was input within the last 60
seconds, advance `last_update` to `now` (without flushing anything). -/
def checkTick (now : Int) (obs_title obs_application : String)
    (st : ListenerState) : ListenerState :=
  if obs_title ≠ st.title ∨ obs_application ≠ st.application then
    onWindowChange now obs_title obs_application st
  else
    match st.last_input_time with
    | some li => if now - li < 60000 then { st with last_update := some now } else st
    | none => st

/-- The `is_active` test of the periodic updater: input was observed
and lies within the 60-second idle threshold. -/
def isActiveAt (now : Int) : Option Int → Prop
  | some li => now - li < 60000
  | none => False

instance (now : Int) (o : Option Int) : Decidable (isActiveAt now o) :=
  match o with
  | some li => inferInstanceAs (Decidable (now - li < 60000))
  | none => inferInstanceAs (Decidable False)

/-- One iteration of `EventListener._update_app_usage_periodically`
(cadence 30 s): if `last_update` is set, the user was active within the
idle threshold, the raw elapsed value is positive and the application
name is non-empty, flush `int(elapsed_time)` seconds to the current
application and advance `last_update`; otherwise leave the state alone. -/
def periodicFlush (now : Int) (st : ListenerState) : ListenerState :=
  match st.last_update with
  | some lu =>
      if isActiveAt now st.last_input_time ∧ 0 < now - lu ∧ st.application ≠ "" then
        let st1 := issueUsage st.application ((now - lu) / 1000) st
        { st1 with last_update := some now }
      else st
  | none => st

/-- `EventListener._on_key_press` / `_on_mouse_click`: set
`last_input_time := now` and log one input event tagged with the current
foreground window. -/
def inputStep (now : Int) (obs_title obs_application : String)
    (st : ListenerState) : ListenerState :=
  log_user_event now obs_title obs_application "keyboard"
    { st with last_input_time := some now }

/-- A deterministic schedule for one tracker run: the foreground window
observed during second `t` and whether the user produces input during
second `t`. -/
structure Scenario where
  window : ℕ → String × String
  hasInput : ℕ → Bool

/-- One second of the concurrent system under the canonical deterministic
interleaving: the input callback (if any) fires first, then the 30-second
periodic-flush thread (when `t` is a positive multiple of 30), then the
1-second window-check tick. -/
def secondStep (sc : Scenario) (t : ℕ) (st : ListenerState) : ListenerState :=
  let now : Int := (t : Int) * 1000
  let st1 := if sc.hasInput t then inputStep now (sc.window t).1 (sc.window t).2 st else st
  let st2 := if t % 30 = 0 ∧ t ≠ 0 then periodicFlush now st1 else st1
  checkTick now (sc.window t).1 (sc.window t).2 st2

/-- Run the tracker for seconds `t = 0, 1, ..., n-1`. -/
def runTracker (sc : Scenario) (n : ℕ) : ListenerState :=
  (List.range n).foldl (fun st t => secondStep sc t st) initListener

/-- The end-to-end scenario of the spec: App A from t=0, App B from
t=30 s, App A again from t=90 s, continuous input every second. -/
def scenarioEndToEnd : Scenario where
  window t := if t < 30 then ("WinA", "AppA")
              else if t < 90 then ("WinB", "AppB")
              else ("WinA", "AppA")
  hasInput _ := true

/-- Idle-then-change scenario: window A throughout `[0, 120)`, window B
observed at t=120 s; the user produces input only during the first 10
seconds, so from t=70 s on the tracker is idle
(`now - last_input ≥ 60 s`). -/
def scenarioIdleChange : Scenario where
  window t := if t < 120 then ("WinA", "AppA") else ("WinB", "AppB")
  hasInput t := t ≤ 10

/-! ### Behaviour of the two flush paths -/

lemma periodicFlush_of_not_active (st : ListenerState) (now : Int)
    (h : ¬ isActiveAt now st.last_input_time) : periodicFlush now st = st := by
  simp only [periodicFlush]
  cases hl : st.last_update with
  | none => rfl
  | some lu =>
      simp only [hl]
      exact if_neg (fun hc => h hc.1)

lemma periodicFlush_of_nonpos (st : ListenerState) (now lu : Int)
    (h : st.last_update = some lu) (hnp : now - lu ≤ 0) :
    periodicFlush now st = st := by
  simp only [periodicFlush, h]
  exact if_neg (fun hc => absurd hc.2.1 (not_lt.2 hnp))

lemma periodicFlush_calls_of_flush (st : ListenerState) (now lu : Int)
    (h : st.last_update = some lu) (ha : isActiveAt now st.last_input_time)
    (hpos : 0 < now - lu) (happ : st.application ≠ "") :
    (periodicFlush now st).usage_calls
      = st.usage_calls ++ [(st.application, (now - lu) / 1000)] := by
  simp only [periodicFlush, h]
  rw [if_pos ⟨ha, hpos, happ⟩]
  rfl

lemma onWindowChange_calls_of_pos (st : ListenerState) (now : Int)
    (wt app : String) (lu : Int) (h : st.last_update = some lu)
    (hpos : 0 < now - lu) (happ : st.application ≠ "") :
    (onWindowChange now wt app st).usage_calls
      = st.usage_calls ++ [(st.application, (now - lu) / 1000)] := by
  simp only [onWindowChange, log_user_event, issueUsage, h]
  rw [if_pos ⟨hpos, happ⟩]

lemma onWindowChange_calls_of_nonpos (st : ListenerState) (now : Int)
    (wt app : String) (lu : Int) (h : st.last_update = some lu)
    (hnp : now - lu ≤ 0) :
    (onWindowChange now wt app st).usage_calls = st.usage_calls := by
  simp only [onWindowChange, log_user_event, issueUsage, h]
  rw [if_neg (fun hc => absurd hc.1 (not_lt.2 hnp))]

lemma filter_map_eq_filter (f : UsageRow → UsageRow) (p : UsageRow → Bool) :
    ∀ table : List UsageRow, (∀ r ∈ table, p (f r) = p r ∧ (p r = true → f r = r)) →
    (table.map f).filter p = table.filter p
  | [], _ => rfl
  | r :: table, h => by
      have hr := h r (List.mem_cons_self r table)
      have ih := filter_map_eq_filter f p table
        (fun x hx => h x (List.mem_cons_of_mem r hx))
      by_cases hp : p r = true
      · simp [hr.1, hp, hr.2 hp, ih]
      · simp [hr.1, hp, ih]

/-- `update_app_usage` touches only its own `(date, application)` key:
rows of every other key, and hence their totals, are untouched. -/
lemma totalFor_update_of_ne (table : List UsageRow) (app : String)
    (delta : Int) (d d2 a2 : String) (hne : d2 ≠ d ∨ a2 ≠ app) :
    totalFor (update_app_usage table app delta d) d2 a2 = totalFor table d2 a2 := by
  have hkey : ∀ r : UsageRow, keyMatch d2 a2 r = true → keyMatch d app r = false := by
    intro r hr
    simp only [keyMatch, Bool.and_eq_true, beq_iff_eq] at hr
    rw [Bool.eq_false_iff]
    intro hc
    simp only [keyMatch, Bool.and_eq_true, beq_iff_eq] at hc
    rcases hne with hne | hne
    · exact hne (by rw [← hr.1, hc.1])
    · exact hne (by rw [← hr.2, hc.2])
  unfold update_app_usage
  cases hf : table.find? (keyMatch d app) with
  | some r0 =>
      unfold totalFor
      have hfm := filter_map_eq_filter
        (fun r => if keyMatch d app r then
            { r with duration_seconds := r0.duration_seconds + delta } else r)
        (keyMatch d2 a2) table ?side
      · rw [hfm]
      case side =>
        intro r _
        constructor
        · by_cases hm : keyMatch d app r = true
          · simp only [keyMatch, Bool.and_eq_true, beq_iff_eq] at hm
            simp [keyMatch, hm.1, hm.2]
          · simp [hm]
        · intro hp
          simp [hkey r hp]
  | none =>
      unfold totalFor
      rw [List.filter_append]
      have hsing : List.filter (keyMatch d2 a2) [(⟨d, app, delta⟩ : UsageRow)] = [] := by
        have hfalse : keyMatch d2 a2 (⟨d, app, delta⟩ : UsageRow) = false := by
          rw [Bool.eq_false_iff]
          intro hc
          simp only [keyMatch, Bool.and_eq_true, beq_iff_eq] at hc
          rcases hne with hne | hne
          · exact hne hc.1.symm
          · exact hne hc.2.symm
        simp [List.filter, hfalse]
      rw [hsing, List.append_nil]

set_option maxRecDepth 100000 in
set_option maxHeartbeats 4000000 in
/-- Claim C1 (code evaluation): running the deterministic interleaving of
the tracker threads on the spec's end-to-end scenario (window changes at
t=0 s, 30 s, 90 s, continuous input).  Exactly 3 `window_change` events are
appended and App A does begin a new accrual period at t=90 s, but because
`_check_active_window` advances `last_update` every active second without
flushing the elapsed time, App A accrues only 1 second for t0..t30 and
App B only 2 seconds for t30..t90, instead of the intended 30 and 60. -/
theorem c1_end_to_end_run_eval :
    ((runTracker scenarioEndToEnd 91).events.filter
        (fun e => e.event_type == "window_change")).length = 3 ∧
    ((runTracker scenarioEndToEnd 91).events.filter
        (fun e => e.event_type == "window_change")).map
        (fun e => (e.timestamp, e.application))
      = [(0, "AppA"), (30000, "AppB"), (90000, "AppA")] ∧
    (runTracker scenarioEndToEnd 91).usage_calls
      = [("AppA", 1), ("AppB", 1), ("AppB", 1)] ∧
    totalFor (runTracker scenarioEndToEnd 91).table runDate "AppA" = 1 ∧
    totalFor (runTracker scenarioEndToEnd 91).table runDate "AppB" = 2 ∧
    (runTracker scenarioEndToEnd 91).application = "AppA" ∧
    (runTracker scenarioEndToEnd 91).last_update = some 90000 := by
  decide

set_option maxRecDepth 100000 in
set_option maxHeartbeats 4000000 in
/-- Claim C2 counterexample: in the idle-then-change scenario the user's
last input is at t=10 s, so the tracker is idle from t=70 s on; yet the
window change observed at t=120 s issues a transition flush of 51 seconds
(covering 69 s..120 s, well inside the idle period) because
`_on_window_change` performs no idle-threshold check.  This refutes the
claim that the transition-triggered flush only fires when the previous
state was active. -/
theorem c2_counterexample :
    (runTracker scenarioIdleChange 120).last_input_time = some 10000 ∧
    (120000 : Int) - 10000 ≥ 60000 ∧
    (runTracker scenarioIdleChange 121).usage_calls
      = (runTracker scenarioIdleChange 120).usage_calls ++ [("AppA", 51)] ∧
    totalFor (runTracker scenarioIdleChange 120).table runDate "AppA" = 2 ∧
    totalFor (runTracker scenarioIdleChange 121).table runDate "AppA" = 53 := by
  decide

/-- Claim C2 (amended): only the periodic flush path excludes idle time —
when `now - lastInput ≥ idleThreshold` the periodic updater leaves the
state entirely unchanged, so no duration is accrued by it; the
transition-triggered flush in `_on_window_change`, however, flushes
`elapsed = now - lastUpdate` (floored to whole seconds) to the previous
application whenever the raw elapsed value is positive, regardless of the
idle state, so idle time preceding a window change can be counted. -/
theorem c2_idle_amended :
    (∀ (st : ListenerState) (now : Int),
        ¬ isActiveAt now st.last_input_time → periodicFlush now st = st) ∧
    (∀ (st : ListenerState) (now : Int) (wt app : String) (lu : Int),
        st.last_update = some lu → 0 < now - lu → st.application ≠ "" →
        (onWindowChange now wt app st).usage_calls
          = st.usage_calls ++ [(st.application, (now - lu) / 1000)]) :=
  ⟨periodicFlush_of_not_active, onWindowChange_calls_of_pos⟩

/-- Witness for `c2_idle_amended` at concrete states: an idle periodic
tick is the identity, and a window change with 2.5 s raw elapsed flushes
2 seconds even though the state is idle (`last_input` 110 s in the
past). -/
theorem c2_idle_amended_witness :
    periodicFlush 120000 ⟨"W", "A", some 0, some 10000, [], [], []⟩
      = ⟨"W", "A", some 0, some 10000, [], [], []⟩ ∧
    (onWindowChange 120000 "W2" "B"
        ⟨"W", "A", some 0, some 10000, [], [], []⟩).usage_calls
      = [("A", 120)] :=
  ⟨c2_idle_amended.1 _ _ (by decide),
   by rw [c2_idle_amended.2 ⟨"W", "A", some 0, some 10000, [], [], []⟩
        120000 "W2" "B" 0 rfl (by decide) (by decide)]; rfl⟩

/-- Claim C5 counterexample: with 0.5 s of raw elapsed time (500 ms), the
pre-floor guard `elapsed_time > 0` passes and `int(elapsed_time) = 0` is
passed on to `update_app_usage` — a delta that is zero after flooring is
not discarded, contradicting the claim; on an empty table the call even
creates a `(runDate, "AppA", 0)` row. -/
theorem c5_counterexample :
    (onWindowChange 500 "W2" "AppB"
        ⟨"W", "AppA", some 0, none, [], [], []⟩).usage_calls = [("AppA", 0)] ∧
    (onWindowChange 500 "W2" "AppB"
        ⟨"W", "AppA", some 0, none, [], [], []⟩).table
      = [⟨runDate, "AppA", 0⟩] := by
  decide

/-- Claim C5 (amended): on both flush paths the guard tests the raw
(un-floored) elapsed value: a flush is issued exactly when
`now - lastUpdate > 0` (and the other path conditions hold), and the
flushed delta is `⌊elapsed seconds⌋`; hence a zero or negative raw elapsed
value is discarded, but a positive sub-second elapsed value is flushed as
a zero delta rather than discarded.  An `update_app_usage` call never
affects any other `(date, application)` key. -/
theorem c5_delta_amended :
    (∀ (st : ListenerState) (now : Int) (wt app : String) (lu : Int),
        st.last_update = some lu → now - lu ≤ 0 →
        (onWindowChange now wt app st).usage_calls = st.usage_calls) ∧
    (∀ (st : ListenerState) (now : Int) (wt app : String) (lu : Int),
        st.last_update = some lu → 0 < now - lu → st.application ≠ "" →
        (onWindowChange now wt app st).usage_calls
          = st.usage_calls ++ [(st.application, (now - lu) / 1000)]) ∧
    (∀ (st : ListenerState) (now lu : Int),
        st.last_update = some lu → now - lu ≤ 0 → periodicFlush now st = st) ∧
    (∀ (st : ListenerState) (now lu : Int),
        st.last_update = some lu → isActiveAt now st.last_input_time →
        0 < now - lu → st.application ≠ "" →
        (periodicFlush now st).usage_calls
          = st.usage_calls ++ [(st.application, (now - lu) / 1000)]) ∧
    (∀ ms : Int, ms / 1000 = ⌊(ms : ℚ) / (1000 : ℚ)⌋) ∧
    (∀ (table : List UsageRow) (app : String) (delta : Int) (d d2 a2 : String),
        d2 ≠ d ∨ a2 ≠ app →
        totalFor (update_app_usage table app delta d) d2 a2
          = totalFor table d2 a2) := by
  refine ⟨onWindowChange_calls_of_nonpos, onWindowChange_calls_of_pos,
    periodicFlush_of_nonpos, periodicFlush_calls_of_flush, ?_,
    totalFor_update_of_ne⟩
  intro ms
  have h := Rat.floor_intCast_div_natCast ms 1000
  norm_num at h
  rw [h]

/-- Witness for `c5_delta_amended` at concrete inputs: a clock anomaly of
-300 ms issues no flush; a 2500 ms elapsed issues a flush of 2 seconds;
an idle-satisfying periodic tick with 500 ms elapsed flushes 0; the floor
identity at 1500 ms; and updating key `(D, A)` leaves key `(D, B)`
untouched. -/
theorem c5_delta_amended_witness :
    (onWindowChange 700 "W2" "B"
        ⟨"W", "A", some 1000, none, [], [], []⟩).usage_calls = [] ∧
    (onWindowChange 2500 "W2" "B"
        ⟨"W", "A", some 0, none, [], [], []⟩).usage_calls = [("A", 2)] ∧
    periodicFlush 700 ⟨"W", "A", some 1000, some 650, [], [], []⟩
      = ⟨"W", "A", some 1000, some 650, [], [], []⟩ ∧
    (periodicFlush 500 ⟨"W", "A", some 0, some 400, [], [], []⟩).usage_calls
      = [("A", 0)] ∧
    (1500 : Int) / 1000 = ⌊((1500 : Int) : ℚ) / (1000 : ℚ)⌋ ∧
    totalFor (update_app_usage [⟨"D", "B", 7⟩] "A" 3 "D") "D" "B"
      = totalFor [(⟨"D", "B", 7⟩ : UsageRow)] "D" "B" := by
  refine ⟨?_, ?_, ?_, ?_, ?_, ?_⟩
  · exact c5_delta_amended.1 _ 700 "W2" "B" 1000 rfl (by decide)
  · rw [c5_delta_amended.2.1 _ 2500 "W2" "B" 0 rfl (by decide) (by decide)]
    rfl
  · exact c5_delta_amended.2.2.1 _ 700 1000 rfl (by decide)
  · rw [c5_delta_amended.2.2.2.1 _ 500 0 rfl (by decide) (by decide) (by decide)]
    rfl
  · exact c5_delta_amended.2.2.2.2.1 1500
  · exact c5_delta_amended.2.2.2.2.2 _ "A" 3 "D" "D" "B" (Or.inr (by decide))

/-! ### `get_app_usage` and zero-delta upserts (claims C6, C7) -/

lemma update_eq_append_of_none (table : List UsageRow) (d a : String)
    (delta : Int) (hf : table.find? (keyMatch d a) = none) :
    update_app_usage table a delta d = table ++ [⟨d, a, delta⟩] := by
  unfold update_app_usage
  rw [hf]

lemma update_zero_eq_of_found (table : List UsageRow) (d a : String)
    (h : keysNodup table) (r0 : UsageRow)
    (hf : table.find? (keyMatch d a) = some r0) :
    update_app_usage table a 0 d = table := by
  simp only [update_app_usage, hf]
  have hr0mem : r0 ∈ table := List.mem_of_find?_eq_some hf
  have hr0key : keyMatch d a r0 = true := List.find?_some hf
  have hinj := List.inj_on_of_nodup_map h
  have hstep : ∀ r ∈ table,
      (if keyMatch d a r then
        { r with duration_seconds := r0.duration_seconds + 0 } else r) = id r := by
    intro r hr
    by_cases hm : keyMatch d a r = true
    · have hkeys : (fun x : UsageRow => (x.date, x.application)) r
          = (fun x : UsageRow => (x.date, x.application)) r0 := by
        simp only [keyMatch, Bool.and_eq_true, beq_iff_eq] at hm hr0key
        simp [hm.1, hm.2, hr0key.1, hr0key.2]
      have hrr0 : r = r0 := hinj hr hr0mem hkeys
      simp [hm, ← hrr0]
    · simp [hm]
  rw [List.map_congr_left hstep, List.map_id]

lemma totalFor_append_zero (table : List UsageRow) (d a d2 a2 : String) :
    totalFor (table ++ [⟨d, a, 0⟩]) d2 a2 = totalFor table d2 a2 := by
  unfold totalFor
  rw [List.filter_append, List.map_append, List.sum_append]
  cases hm : keyMatch d2 a2 (⟨d, a, 0⟩ : UsageRow) <;> simp [List.filter, hm]

/-- Claim C7 counterexample: on the empty store (no row for key
`("D", "A")` exists), `upsertUsage("D", "A", 0)` inserts a fresh zero row,
so the record set observable through `getUsage` changes from `[]` to one
record — the zero-delta call is not a no-op on the record set. -/
theorem c7_counterexample :
    get_app_usage (update_app_usage [] "A" 0 "D") "D" 1 = [⟨"D", "A", 0⟩] ∧
    get_app_usage ([] : List UsageRow) "D" 1 = [] := by
  decide

/-- Claim C7 (amended): under the one-row-per-key invariant a zero-delta
upsert never changes any stored total, and when a row for the key exists
it leaves the table exactly unchanged; but when no row exists it appends
a fresh `(date, application, 0)` row, so the *record set* observable via
`getUsage` grows by one zero-duration record. -/
theorem c7_zero_delta_amended (table : List UsageRow) (d a : String)
    (h : keysNodup table) :
    (∀ d2 a2, totalFor (update_app_usage table a 0 d) d2 a2
        = totalFor table d2 a2) ∧
    ((∃ r ∈ table, keyMatch d a r = true) →
        update_app_usage table a 0 d = table) ∧
    ((¬ ∃ r ∈ table, keyMatch d a r = true) →
        update_app_usage table a 0 d = table ++ [⟨d, a, 0⟩]) := by
  refine ⟨?_, ?_, ?_⟩
  · intro d2 a2
    cases hf : table.find? (keyMatch d a) with
    | some r0 => rw [update_zero_eq_of_found table d a h r0 hf]
    | none => rw [update_eq_append_of_none table d a 0 hf, totalFor_append_zero]
  · rintro ⟨r, hr, hkr⟩
    cases hf : table.find? (keyMatch d a) with
    | some r0 => exact update_zero_eq_of_found table d a h r0 hf
    | none => exact absurd hkr (by simpa using List.find?_eq_none.mp hf r hr)
  · intro hnex
    cases hf : table.find? (keyMatch d a) with
    | some r0 =>
        exact absurd ⟨r0, List.mem_of_find?_eq_some hf, List.find?_some hf⟩ hnex
    | none => exact update_eq_append_of_none table d a 0 hf

/-- Witness for `c7_zero_delta_amended`: a concrete one-row store where
the key exists (total preserved, table unchanged) and where a different
key is upserted (row appended). -/
theorem c7_zero_delta_amended_witness :
    totalFor (update_app_usage [⟨"D", "A", 5⟩] "A" 0 "D") "D" "A"
      = totalFor [(⟨"D", "A", 5⟩ : UsageRow)] "D" "A" ∧
    update_app_usage [⟨"D", "A", 5⟩] "A" 0 "D" = [⟨"D", "A", 5⟩] ∧
    update_app_usage [⟨"D", "A", 5⟩] "B" 0 "D"
      = [⟨"D", "A", 5⟩, ⟨"D", "B", 0⟩] := by
  refine ⟨?_, ?_, ?_⟩
  · exact (c7_zero_delta_amended [⟨"D", "A", 5⟩] "D" "A" (by decide)).1 "D" "A"
  · exact (c7_zero_delta_amended [⟨"D", "A", 5⟩] "D" "A" (by decide)).2.1
      ⟨⟨"D", "A", 5⟩, by decide, by decide⟩
  · exact (c7_zero_delta_amended [⟨"D", "A", 5⟩] "D" "B" (by decide)).2.2
      (by decide)

/-- Claim C6 counterexample: `get_app_usage` with `days = 2` uses `days`
as a SQL `LIMIT` on the row count instead of a date window.  With three
rows all inside the 2-day window ending `2024-01-02`, only 2 rows come
back and the in-window row `("2024-01-01", "A", 10)` is omitted; and with
a single row dated `2023-05-05` (far outside the window), that
out-of-window record is returned. -/
theorem c6_counterexample :
    (get_app_usage [⟨"2024-01-01", "A", 10⟩, ⟨"2024-01-02", "B", 20⟩,
        ⟨"2024-01-02", "C", 30⟩] "2024-01-02" 2).length = 2 ∧
    (⟨"2024-01-01", "A", 10⟩ : UsageRow) ∉
      get_app_usage [⟨"2024-01-01", "A", 10⟩, ⟨"2024-01-02", "B", 20⟩,
        ⟨"2024-01-02", "C", 30⟩] "2024-01-02" 2 ∧
    get_app_usage [⟨"2023-05-05", "A", 10⟩] "2024-01-02" 2
      = [⟨"2023-05-05", "A", 10⟩] ∧
    ¬ strLe "2024-01-01" "2023-05-05" := by
  refine ⟨by decide, by decide, by decide, by decide⟩

/-- Claim C6 (amended): a single-date call returns exactly the records of
that date; a `days > 1` call returns the first `days` rows (a row-count
limit) among *all* rows with `date ≤` the given date, ordered most-recent
first — in-window rows beyond the first `days` are omitted and rows older
than any N-day window can be returned; only when at most `days` rows
match is the result exactly the set of rows with `date ≤` the given
date. -/
theorem c6_get_usage_amended (table : List UsageRow) (d : String) (days : ℕ) :
    (∀ r, r ∈ get_app_usage table d 1 ↔ r ∈ table ∧ r.date = d) ∧
    (1 < days →
      (get_app_usage table d days).Sorted usageDateGe ∧
      (∀ r ∈ get_app_usage table d days, strLe r.date d) ∧
      (get_app_usage table d days).length
        = min days (table.filter (fun r => decide (strLe r.date d))).length ∧
      ((table.filter (fun r => decide (strLe r.date d))).length ≤ days →
        ∀ r, r ∈ get_app_usage table d days ↔ r ∈ table ∧ strLe r.date d)) := by
  constructor
  · intro r
    simp [get_app_usage, List.mem_filter]
  · intro hdays
    have hget : get_app_usage table d days
        = (insertionSort usageDateGe
            (table.filter (fun r => decide (strLe r.date d)))).take days := by
      simp [get_app_usage, hdays]
    refine ⟨?_, ?_, ?_, ?_⟩
    · rw [hget]
      exact (sorted_insertionSort usageDateGe _).sublist
        (List.take_sublist days _)
    · intro r hr
      rw [hget] at hr
      have hr2 : r ∈ insertionSort usageDateGe
          (table.filter (fun r => decide (strLe r.date d))) :=
        (List.take_sublist days _).subset hr
      have hr3 := (mem_insertionSort usageDateGe).mp hr2
      exact of_decide_eq_true (List.mem_filter.mp hr3).2
    · rw [hget, List.length_take, length_insertionSort]
    · intro hlen r
      have hlen2 : (insertionSort usageDateGe
          (table.filter (fun r => decide (strLe r.date d)))).length ≤ days := by
        rw [length_insertionSort]
        exact hlen
      rw [hget, List.take_of_length_le hlen2, mem_insertionSort,
        List.mem_filter]
      simp

/-- Witness for `c6_get_usage_amended` at a concrete store and `days = 2`:
single-date membership, the `days > 1` conjuncts at a two-row store. -/
theorem c6_get_usage_amended_witness :
    ((⟨"2024-01-02", "B", 20⟩ : UsageRow) ∈
        get_app_usage [⟨"2024-01-01", "A", 10⟩, ⟨"2024-01-02", "B", 20⟩]
          "2024-01-02" 1
      ↔ (⟨"2024-01-02", "B", 20⟩ : UsageRow) ∈
          ([⟨"2024-01-01", "A", 10⟩, ⟨"2024-01-02", "B", 20⟩] : List UsageRow)
        ∧ "2024-01-02" = "2024-01-02") ∧
    (get_app_usage [⟨"2024-01-01", "A", 10⟩, ⟨"2024-01-02", "B", 20⟩]
        "2024-01-02" 2).Sorted usageDateGe ∧
    (get_app_usage [⟨"2024-01-01", "A", 10⟩, ⟨"2024-01-02", "B", 20⟩]
        "2024-01-02" 2).length = 2 := by
  refine ⟨?_, ?_, ?_⟩
  · have h := (c6_get_usage_amended
      [⟨"2024-01-01", "A", 10⟩, ⟨"2024-01-02", "B", 20⟩] "2024-01-02" 2).1
      ⟨"2024-01-02", "B", 20⟩
    simpa using h
  · exact ((c6_get_usage_amended
      [⟨"2024-01-01", "A", 10⟩, ⟨"2024-01-02", "B", 20⟩] "2024-01-02" 2).2
      (by decide)).1
  · have h := ((c6_get_usage_amended
      [⟨"2024-01-01", "A", 10⟩, ⟨"2024-01-02", "B", 20⟩] "2024-01-02" 2).2
      (by decide)).2.2.1
    rw [h]
    decide

/-! ## Sequence Pattern Miner (`Analyzer.identify_frequent_sequences`,
`src/analyzer.py`)

The SQL query filters `user_events` to `event_type = 'window_change' AND
timestamp >= cutoff` and orders ascending by timestamp (`cutoff` is the
date string `today - days`; the theorems quantify over it directly).
Python builds the 3-gram list, counts it with `collections.Counter`
(a dict whose keys keep first-insertion order), keeps entries with
`freq >= min_frequency` and applies the stable `list.sort` descending by
frequency. -/

/-- A `user_events` row as read back by the miner. -/
structure UserEvent where
  timestamp : String
  application : String
  window_title : String
  event_type : String
deriving DecidableEq

/-- The label `f"{row['application']}: {row['window_title']}"`. -/
def label (e : UserEvent) : String := e.application ++ ": " ++ e.window_title

/-- `ORDER BY timestamp` (ascending). -/
def tsLe (e1 e2 : UserEvent) : Prop := strLe e1.timestamp e2.timestamp

instance : DecidableRel tsLe :=
  fun a b => inferInstanceAs (Decidable (strLe a.timestamp b.timestamp))

instance : IsTotal UserEvent tsLe :=
  ⟨fun a b => (strLe_total a.timestamp b.timestamp).elim Or.inl Or.inr⟩

instance : IsTrans UserEvent tsLe := ⟨fun _ _ _ h h2 => strLe_trans h h2⟩

/-- The rows produced by the miner's SQL query: `window_change` events
with `timestamp >= cutoff`, ascending by timestamp. -/
def scannedEvents (events : List UserEvent) (cutoff : String) : List UserEvent :=
  insertionSort tsLe
    (events.filter
      (fun e => e.event_type == "window_change" && decide (strLe cutoff e.timestamp)))

/-- `for i in range(len(df) - 2): tuple of rows i..i+2` — the list of
3-grams over the label sequence. -/
def ngrams3 (l : List String) : List (List String) :=
  (List.range (l.length - 2)).map (fun i => (l.drop i).take 3)

/-- One `Counter` increment: bump the first entry holding the key, or
append a fresh entry (dict keys keep first-insertion order). -/
def bump {α : Type} [DecidableEq α] : List (α × ℕ) → α → List (α × ℕ)
  | [], s => [(s, 1)]
  | p :: rest, s => if p.1 = s then (p.1, p.2 + 1) :: rest else p :: bump rest s

/-- Fold a `Counter` over a list. -/
def countAux {α : Type} [DecidableEq α] : List (α × ℕ) → List α → List (α × ℕ)
  | acc, [] => acc
  | acc, s :: l => countAux (bump acc s) l

/-- `collections.Counter(sequences).items()`: association list in
first-occurrence key order. -/
def countList {α : Type} [DecidableEq α] (l : List α) : List (α × ℕ) :=
  countAux [] l

/-- The sort key of `frequent_sequences.sort(key=..., reverse=True)`. -/
def freqGe {α : Type} (p q : α × ℕ) : Prop := q.2 ≤ p.2

instance {α : Type} : DecidableRel (freqGe (α := α)) :=
  fun p q => inferInstanceAs (Decidable (q.2 ≤ p.2))

instance {α : Type} : IsTotal (α × ℕ) freqGe := ⟨fun a b => le_total b.2 a.2⟩

instance {α : Type} : IsTrans (α × ℕ) freqGe := ⟨fun _ _ _ h h2 => le_trans h2 h⟩

/-- The 3-gram stream scanned by one mining run. -/
def minerGrams (events : List UserEvent) (cutoff : String) : List (List String) :=
  ngrams3 ((scannedEvents events cutoff).map label)

/-- `Analyzer.identify_frequent_sequences`: count the 3-grams, keep those
with `freq >= min_frequency`, sort descending by frequency with Python's
stable sort.  (The early `if df.empty: return []` branch coincides with
the general computation, which yields `[]` there.) -/
def identify_frequent_sequences (events : List UserEvent) (cutoff : String)
    (min_frequency : ℕ) : List (List String × ℕ) :=
  insertionSort freqGe
    ((countList (minerGrams events cutoff)).filter
      (fun p => decide (min_frequency ≤ p.2)))

/-! ### Counter lemmas -/

/-- Lookup in the association list (first entry wins, as in a dict). -/
def getCnt {α : Type} [DecidableEq α] : List (α × ℕ) → α → ℕ
  | [], _ => 0
  | p :: rest, s => if p.1 = s then p.2 else getCnt rest s

/-- The key list of a counter. -/
def keysOf {α : Type} (acc : List (α × ℕ)) : List α := acc.map Prod.fst

/-- First-occurrence accumulation of keys, mirroring dict key order. -/
def firstOccAux {α : Type} [DecidableEq α] : List α → List α → List α
  | acc, [] => acc
  | acc, s :: l => firstOccAux (if s ∈ acc then acc else acc ++ [s]) l

lemma keysOf_bump {α : Type} [DecidableEq α] (acc : List (α × ℕ)) (s : α) :
    keysOf (bump acc s)
      = if s ∈ keysOf acc then keysOf acc else keysOf acc ++ [s] := by
  induction acc with
  | nil => simp [bump, keysOf]
  | cons p rest ih =>
      by_cases h : p.1 = s
      · simp [bump, keysOf, h]
      · simp only [bump, if_neg h, keysOf, List.map_cons]
        simp only [keysOf] at ih
        rw [ih]
        by_cases hm : s ∈ rest.map Prod.fst
        · simp [hm, Ne.symm h]
        · simp [hm, Ne.symm h]

lemma getCnt_bump_self {α : Type} [DecidableEq α] (acc : List (α × ℕ)) (s : α) :
    getCnt (bump acc s) s = getCnt acc s + 1 := by
  induction acc with
  | nil => simp [bump, getCnt]
  | cons p rest ih =>
      by_cases h : p.1 = s
      · simp [bump, getCnt, h]
      · simp [bump, getCnt, h, ih]

lemma getCnt_bump_ne {α : Type} [DecidableEq α] (acc : List (α × ℕ)) (s t : α)
    (h : t ≠ s) : getCnt (bump acc s) t = getCnt acc t := by
  have hst : ¬ s = t := fun hc => h hc.symm
  induction acc with
  | nil =>
      simp only [bump, getCnt]
      rw [if_neg hst]
  | cons p rest ih =>
      by_cases hp : p.1 = s
      · simp only [bump, if_pos hp, getCnt]
        rw [hp, if_neg hst, if_neg hst]
      · simp only [bump, if_neg hp, getCnt]
        rw [ih]

lemma nodup_keysOf_bump {α : Type} [DecidableEq α] (acc : List (α × ℕ)) (s : α)
    (h : (keysOf acc).Nodup) : (keysOf (bump acc s)).Nodup := by
  rw [keysOf_bump]
  by_cases hm : s ∈ keysOf acc
  · simpa [hm] using h
  · simp only [hm, if_false]
    simp [List.nodup_append, h, hm]

lemma getCnt_countAux {α : Type} [DecidableEq α] :
    ∀ (l : List α) (acc : List (α × ℕ)) (s : α),
      getCnt (countAux acc l) s = getCnt acc s + l.count s := by
  intro l
  induction l with
  | nil => intro acc s; simp [countAux]
  | cons a l ih =>
      intro acc s
      by_cases h : a = s
      · subst h
        simp only [countAux, ih (bump acc a) a, getCnt_bump_self,
          List.count_cons_self]
        omega
      · simp only [countAux, ih (bump acc a) s,
          getCnt_bump_ne acc a s (fun hc => h hc.symm)]
        rw [List.count_cons_of_ne (fun hc => h hc.symm)]

lemma keysOf_countAux {α : Type} [DecidableEq α] :
    ∀ (l : List α) (acc : List (α × ℕ)),
      keysOf (countAux acc l) = firstOccAux (keysOf acc) l := by
  intro l
  induction l with
  | nil => intro acc; rfl
  | cons a l ih =>
      intro acc
      simp only [countAux, firstOccAux, ih (bump acc a), keysOf_bump]

lemma nodup_keysOf_countAux {α : Type} [DecidableEq α] :
    ∀ (l : List α) (acc : List (α × ℕ)),
      (keysOf acc).Nodup → (keysOf (countAux acc l)).Nodup := by
  intro l
  induction l with
  | nil => intro acc h; exact h
  | cons a l ih => intro acc h; exact ih (bump acc a) (nodup_keysOf_bump acc a h)

lemma mem_firstOccAux {α : Type} [DecidableEq α] :
    ∀ (l acc : List α) (x : α), x ∈ firstOccAux acc l ↔ x ∈ acc ∨ x ∈ l := by
  intro l
  induction l with
  | nil => intro acc x; simp [firstOccAux]
  | cons a l ih =>
      intro acc x
      simp only [firstOccAux, ih]
      by_cases hm : a ∈ acc
      · simp only [hm, if_true, List.mem_cons]
        constructor
        · rintro (h | h)
          · exact Or.inl h
          · exact Or.inr (Or.inr h)
        · rintro (h | h | h)
          · exact Or.inl h
          · exact Or.inl (h ▸ hm)
          · exact Or.inr h
      · simp only [hm, if_false, List.mem_append, List.mem_singleton,
          List.mem_cons]
        tauto

lemma getCnt_mem {α : Type} [DecidableEq α] :
    ∀ acc : List (α × ℕ), (keysOf acc).Nodup →
      ∀ p ∈ acc, p.2 = getCnt acc p.1 := by
  intro acc
  induction acc with
  | nil => intro _ p hp; simp at hp
  | cons q rest ih =>
      intro hnd p hp
      rcases List.mem_cons.mp hp with rfl | hp2
      · simp [getCnt]
      · have hq1 : ¬ q.1 = p.1 := by
          intro hc
          have : p.1 ∈ keysOf rest :=
            List.mem_map_of_mem Prod.fst hp2
          rw [← hc] at this
          exact (List.nodup_cons.mp hnd).1 this
        simp only [getCnt, hq1, if_false]
        exact ih (List.nodup_cons.mp hnd).2 p hp2

lemma mem_of_getCnt {α : Type} [DecidableEq α] :
    ∀ (acc : List (α × ℕ)) (s : α), s ∈ keysOf acc → (s, getCnt acc s) ∈ acc := by
  intro acc
  induction acc with
  | nil => intro s hs; simp [keysOf] at hs
  | cons q rest ih =>
      intro s hs
      by_cases hq : q.1 = s
      · have hv : getCnt (q :: rest) s = q.2 := by simp [getCnt, hq]
        rw [hv]
        refine List.mem_cons.mpr (Or.inl ?_)
        rw [← hq]
      · have hs2 : s ∈ keysOf rest := by
          rcases List.mem_cons.mp hs with h | h
          · exact absurd h.symm hq
          · exact h
        simp only [getCnt, hq, if_false]
        exact List.mem_cons_of_mem q (ih s hs2)

lemma firstOccAux_append {α : Type} [DecidableEq α] :
    ∀ (l1 l2 : List α) (acc : List α),
      firstOccAux acc (l1 ++ l2) = firstOccAux (firstOccAux acc l1) l2 := by
  intro l1
  induction l1 with
  | nil => intro l2 acc; rfl
  | cons a l1 ih =>
      intro l2 acc
      simp only [List.cons_append, firstOccAux]
      exact ih l2 _

/-- The dict key order of a counter built over `l`: keys listed in order
of first occurrence in `l`. -/
def firstOcc {α : Type} [DecidableEq α] (l : List α) : List α := firstOccAux [] l

lemma mem_firstOcc {α : Type} [DecidableEq α] (l : List α) (x : α) :
    x ∈ firstOcc l ↔ x ∈ l := by
  rw [firstOcc, mem_firstOccAux]
  simp

lemma pairwise_idx_firstOcc {α : Type} [DecidableEq α] (l : List α) :
    (firstOcc l).Pairwise (fun a b => l.indexOf a < l.indexOf b) := by
  induction l using List.reverseRecOn with
  | nil => simp [firstOcc, firstOccAux]
  | append_singleton l x ih =>
      have hfo : firstOcc (l ++ [x])
          = if x ∈ firstOcc l then firstOcc l else firstOcc l ++ [x] := by
        rw [firstOcc, firstOccAux_append]
        rfl
      by_cases hm : x ∈ firstOcc l
      · rw [hfo, if_pos hm]
        refine ih.imp_of_mem ?_
        intro a b ha hb hab
        have ha2 : a ∈ l := (mem_firstOcc l a).mp ha
        have hb2 : b ∈ l := (mem_firstOcc l b).mp hb
        rw [List.indexOf_append_of_mem ha2, List.indexOf_append_of_mem hb2]
        exact hab
      · rw [hfo, if_neg hm]
        rw [List.pairwise_append]
        refine ⟨?_, by simp, ?_⟩
        · refine ih.imp_of_mem ?_
          intro a b ha hb hab
          have ha2 : a ∈ l := (mem_firstOcc l a).mp ha
          have hb2 : b ∈ l := (mem_firstOcc l b).mp hb
          rw [List.indexOf_append_of_mem ha2, List.indexOf_append_of_mem hb2]
          exact hab
        · intro a ha b hb
          rw [List.mem_singleton] at hb
          subst hb
          have ha2 : a ∈ l := (mem_firstOcc l a).mp ha
          have hb2 : b ∉ l := fun hc => hm ((mem_firstOcc l b).mpr hc)
          rw [List.indexOf_append_of_mem ha2,
            List.indexOf_append_of_not_mem hb2]
          have := List.indexOf_lt_length.mpr ha2
          simp only [List.indexOf_cons_self]
          omega

/-- The counter over `l` lists its entries in strictly increasing order
of first occurrence in `l`. -/
lemma pairwise_countList_idx {α : Type} [DecidableEq α] (l : List α) :
    (countList l).Pairwise (fun p q => l.indexOf p.1 < l.indexOf q.1) := by
  have hkeys : keysOf (countList l) = firstOcc l := keysOf_countAux l []
  have h1 : (keysOf (countList l)).Pairwise
      (fun a b => l.indexOf a < l.indexOf b) := by
    rw [hkeys]
    exact pairwise_idx_firstOcc l
  rw [keysOf, List.pairwise_map] at h1
  exact h1

/-! ### Stability of the modelling sort -/

lemma pairwise_orderedInsert {α : Type} (r : α → α → Prop) [DecidableRel r]
    [IsTrans α r] (P : α → α → Prop) (x : α) :
    ∀ L : List α, L.Pairwise r → L.Pairwise P →
      (∀ y ∈ L, (r x y → P x y) ∧ (¬ r x y → P y x)) →
      (List.orderedInsert r x L).Pairwise P := by
  intro L
  induction L with
  | nil => intro _ _ _; simp
  | cons y L ih =>
      intro hs hP hx
      simp only [List.orderedInsert]
      split_ifs with hxy
      · refine List.Pairwise.cons ?_ hP
        intro z hz
        rcases List.mem_cons.mp hz with rfl | hz2
        · exact (hx z (List.mem_cons_self z L)).1 hxy
        · have hyz : r y z := List.rel_of_pairwise_cons hs hz2
          have hxz : r x z := Trans.trans hxy hyz
          exact (hx z (List.mem_cons_of_mem y hz2)).1 hxz
      · refine List.Pairwise.cons ?_ ?_
        · intro z hz
          rcases (List.mem_orderedInsert r).mp hz with rfl | hz2
          · exact (hx y (List.mem_cons_self y L)).2 hxy
          · exact List.rel_of_pairwise_cons hP hz2
        · exact ih hs.of_cons hP.of_cons
            (fun z hz => hx z (List.mem_cons_of_mem y hz))

/-- Stability of `insertionSort` in relational form: if the input is
pairwise `Q`-related where `Q a b` says "whenever the sort could place
either order, the conclusion `P` holds in the appropriate direction",
then the sorted output is pairwise `P`. -/
lemma pairwise_insertionSort_stable {α : Type} (r : α → α → Prop)
    [DecidableRel r] [IsTotal α r] [IsTrans α r] (P : α → α → Prop) :
    ∀ l : List α,
      l.Pairwise (fun a b => (r a b → P a b) ∧ (¬ r a b → P b a)) →
      (insertionSort r l).Pairwise P := by
  intro l
  induction l with
  | nil => intro _; simp
  | cons a l ih =>
      intro h
      simp only [insertionSort]
      refine pairwise_orderedInsert r P a (insertionSort r l)
        (sorted_insertionSort r l) (ih h.of_cons) ?_
      intro y hy
      exact List.rel_of_pairwise_cons h ((mem_insertionSort r).mp hy)

/-- Occurrence count of a value in a list (with the equality-derived
`BEq` instance, fixed here so that statements and counter lemmas agree). -/
def countOcc {α : Type} [DecidableEq α] (l : List α) (s : α) : ℕ := l.count s

/-- Index of the first occurrence of a value in a list (equality-derived
`BEq` instance). -/
def idxOf {α : Type} [DecidableEq α] (l : List α) (s : α) : ℕ := l.indexOf s

/-- Claim C3: for every event history, cutoff and `min_frequency`,
`identify_frequent_sequences` returns exactly the 3-gram sequences whose
count over the scanned stream is at least `min_frequency`, each carrying
its exact count, sorted descending by frequency with ties in
first-occurrence order of the scanned 3-gram stream (Python's sort is
stable and `Counter` preserves first-insertion key order). -/
theorem c3_support_filter_and_order (events : List UserEvent) (cutoff : String)
    (min_frequency : ℕ) :
    (∀ p ∈ identify_frequent_sequences events cutoff min_frequency,
        min_frequency ≤ p.2 ∧ p.2 = countOcc (minerGrams events cutoff) p.1) ∧
    (∀ s ∈ minerGrams events cutoff,
        min_frequency ≤ countOcc (minerGrams events cutoff) s →
        (s, countOcc (minerGrams events cutoff) s)
          ∈ identify_frequent_sequences events cutoff min_frequency) ∧
    (identify_frequent_sequences events cutoff min_frequency).Pairwise
      (fun p q => q.2 ≤ p.2 ∧ (p.2 = q.2 →
        idxOf (minerGrams events cutoff) p.1
          < idxOf (minerGrams events cutoff) q.1)) := by
  have hnodup : (keysOf (countList (minerGrams events cutoff))).Nodup :=
    nodup_keysOf_countAux _ [] (by simp [keysOf])
  have hval : ∀ s, getCnt (countList (minerGrams events cutoff)) s
      = countOcc (minerGrams events cutoff) s := by
    intro s
    rw [countList, getCnt_countAux, countOcc]
    simp [getCnt]
  refine ⟨?_, ?_, ?_⟩
  · intro p hp
    have hp1 : p ∈ (countList (minerGrams events cutoff)).filter
        (fun p => decide (min_frequency ≤ p.2)) :=
      (mem_insertionSort freqGe).mp hp
    have hp2 := List.mem_filter.mp hp1
    refine ⟨of_decide_eq_true hp2.2, ?_⟩
    have hv := getCnt_mem _ hnodup p hp2.1
    rw [hv, hval]
  · intro s hs hcnt
    have hkeys : s ∈ keysOf (countList (minerGrams events cutoff)) := by
      rw [countList, keysOf_countAux _ []]
      exact (mem_firstOcc _ s).mpr hs
    have hmem := mem_of_getCnt _ s hkeys
    rw [hval] at hmem
    refine (mem_insertionSort freqGe).mpr (List.mem_filter.mpr ⟨hmem, ?_⟩)
    exact decide_eq_true hcnt
  · refine pairwise_insertionSort_stable freqGe _ _ ?_
    have h0 := (pairwise_countList_idx (minerGrams events cutoff)).filter
      (fun p => decide (min_frequency ≤ p.2))
    refine h0.imp ?_
    intro p q hidx
    constructor
    · intro hge
      exact ⟨hge, fun _ => hidx⟩
    · intro hnge
      have hlt : p.2 < q.2 := not_le.mp hnge
      exact ⟨le_of_lt hlt, fun heq => absurd (heq ▸ hlt) (lt_irrefl p.2)⟩

/-- Six `window_change` events alternating between applications A and B
(the spec's `[A,B,A,B,A,B]` input). -/
def evsAB : List UserEvent :=
  [⟨"1", "A", "w", "window_change"⟩, ⟨"2", "B", "w", "window_change"⟩,
   ⟨"3", "A", "w", "window_change"⟩, ⟨"4", "B", "w", "window_change"⟩,
   ⟨"5", "A", "w", "window_change"⟩, ⟨"6", "B", "w", "window_change"⟩]

/-- Witness for `c3_support_filter_and_order` at the concrete history
`evsAB` with `min_frequency = 2`: the returned entry
`(["A: w", "B: w", "A: w"], 2)` passes the support filter and carries its
exact count. -/
theorem c3_support_filter_and_order_witness :
    2 ≤ (["A: w", "B: w", "A: w"], 2).2 ∧
    (["A: w", "B: w", "A: w"], 2).2
      = countOcc (minerGrams evsAB "0") (["A: w", "B: w", "A: w"], 2).1 :=
  (c3_support_filter_and_order evsAB "0" 2).1 (["A: w", "B: w", "A: w"], 2)
    (by decide)

/-- Claim C8 counterexample: with the `[A,B,A,B,A,B]` history and
`minFrequency = 2`, the code cannot be called with `n = 2` — `n` is not a
parameter and is fixed at 3 — and the result contains only length-3
sequences; in particular the claimed pair `((A,B), 3)` is absent. -/
theorem c8_counterexample :
    (["A: w", "B: w"], 3) ∉ identify_frequent_sequences evsAB "0" 2 ∧
    (∀ p ∈ identify_frequent_sequences evsAB "0" 2, p.1 ≠ ["A: w", "B: w"]) := by
  decide

/-- Claim C8 (amended): the window length is hard-coded to 3 — every
returned sequence has exactly 3 labels, every position `i` with
`i + 3 ≤ len` contributes the 3-gram starting at `i`, and on the
`[A,B,A,B,A,B]` history with `minFrequency = 2` the result is
`[((A,B,A), 2), ((B,A,B), 2)]` with `(A,B,A)` first (first-occurrence
order on the frequency tie). -/
theorem c8_ngram_fixed_amended :
    (∀ (events : List UserEvent) (cutoff : String) (mf : ℕ),
        ∀ p ∈ identify_frequent_sequences events cutoff mf, p.1.length = 3) ∧
    (∀ (l : List String) (i : ℕ), i + 3 ≤ l.length →
        (l.drop i).take 3 ∈ ngrams3 l) ∧
    identify_frequent_sequences evsAB "0" 2
      = [(["A: w", "B: w", "A: w"], 2), (["B: w", "A: w", "B: w"], 2)] := by
  refine ⟨?_, ?_, by decide⟩
  · intro events cutoff mf p hp
    have hp1 : p ∈ (countList (minerGrams events cutoff)).filter
        (fun p => decide (mf ≤ p.2)) :=
      (mem_insertionSort freqGe).mp hp
    have hp2 := (List.mem_filter.mp hp1).1
    have hkeys : p.1 ∈ keysOf (countList (minerGrams events cutoff)) :=
      List.mem_map_of_mem Prod.fst hp2
    rw [countList, keysOf_countAux _ []] at hkeys
    have hg : p.1 ∈ minerGrams events cutoff := (mem_firstOcc _ p.1).mp hkeys
    rw [minerGrams, ngrams3] at hg
    rcases List.mem_map.mp hg with ⟨i, hi, hpi⟩
    rw [List.mem_range] at hi
    rw [← hpi, List.length_take, List.length_drop]
    omega
  · intro l i hlen
    rw [ngrams3]
    refine List.mem_map.mpr ⟨i, ?_, rfl⟩
    rw [List.mem_range]
    omega

/-- Witness for `c8_ngram_fixed_amended`: the concrete returned entry has
3 labels, and position 1 of a 4-label stream contributes its 3-gram. -/
theorem c8_ngram_fixed_amended_witness :
    ((["A: w", "B: w", "A: w"], 2) : List String × ℕ).1.length = 3 ∧
    ((["a", "b", "c", "d"].drop 1).take 3 ∈ ngrams3 ["a", "b", "c", "d"]) :=
  ⟨c8_ngram_fixed_amended.1 evsAB "0" 2 (["A: w", "B: w", "A: w"], 2) (by decide),
   c8_ngram_fixed_amended.2.1 ["a", "b", "c", "d"] 1 (by decide)⟩

/-! ## Capture failure sentinels (`EventListener._get_active_window_info`)
(claim C9) -/

/-- Abstract outcome of reading the foreground window: `none` models an
exception from `GetForegroundWindow`/`GetWindowText`/
`GetWindowThreadProcessId` (the outer `except`); `some (title, none)`
models `psutil.NoSuchProcess`/`AccessDenied` when resolving the process
name; `some (title, some app)` is a successful read. -/
def CaptureOutcome : Type := Option (String × Option String)

/-- `EventListener._get_active_window_info`: total on every capture
outcome (every failure is caught; the function always returns a pair and
the monitoring loops keep running) — the substituted values are
`("Hata", "Hata")` for a window-read failure and `"Bilinmeyen Uygulama"`
for a process-name failure. -/
def get_active_window_info : CaptureOutcome → String × String
  | none => ("Hata", "Hata")
  | some (title, none) => (title, "Bilinmeyen Uygulama")
  | some (title, some app) => (title, app)

/-- Claim C9 counterexample: on a window-read failure the substituted
pair is `("Hata", "Hata")` (Turkish for "Error"), not the spec's
`("Unknown Window", "Unknown Application")`. -/
theorem c9_counterexample :
    get_active_window_info none = ("Hata", "Hata") ∧
    get_active_window_info none ≠ ("Unknown Window", "Unknown Application") := by
  decide

/-- Claim C9 (amended): every capture outcome yields a value — failures
never escape `_get_active_window_info` — and the substituted sentinels
are `("Hata", "Hata")` on a window-read failure and
`"Bilinmeyen Uygulama"` (keeping the read title) on a process-name
failure. -/
theorem c9_sentinel_amended :
    get_active_window_info none = ("Hata", "Hata") ∧
    (∀ t : String, get_active_window_info (some (t, none))
      = (t, "Bilinmeyen Uygulama")) ∧
    (∀ (t a : String), get_active_window_info (some (t, some a)) = (t, a)) :=
  ⟨rfl, fun _ => rfl, fun _ _ => rfl⟩

/-! ## Automation Candidate Scorer (`ArketicAssistant`,
`src/arketic_assistant.py`, claims C4 and C10) -/

/-- A candidate as produced by `Analyzer.identify_automation_candidates`
(description strings are presentation-only and elided; the fields the
scorer reads are kept). -/
inductive AutoCandidate : Type
  | sequence (frequency : ℕ) (labels : List String)
  | app_usage (application : String) (duration : String)
  | file_activity (event_type : String) (count : ℕ)
deriving DecidableEq

/-- Split a character list at `':'` — the `duration.split(":")` of the
scorer, modelled at character level. -/
def splitOnColon : List Char → List (List Char)
  | [] => [[]]
  | c :: rest =>
      let r := splitOnColon rest
      if c = ':' then [] :: r
      else (c :: r.headD []) :: r.tail

/-- Python `int()` on the canonical decimal digit strings produced by
`format_duration` (no sign/whitespace handling is ever exercised). -/
def parseNat (l : List Char) : ℕ :=
  l.foldl (fun acc c => acc * 10 + (c.toNat - 48)) 0

/-- `ArketicAssistant._calculate_automation_score`: frequency × 10 for
sequences; `(h*60 + m + s/60) / 10` for app usage when the duration
splits into exactly three `":"`-separated fields (otherwise the score
stays `0.0`); `count / 5` for file activity; all capped at 100. -/
def calculate_automation_score : AutoCandidate → ℚ
  | .sequence f _ => min ((f : ℚ) * 10) 100
  | .app_usage _ dur =>
      let parts := splitOnColon dur.data
      if parts.length = 3 then
        min (((parseNat (parts.headD []) : ℚ) * 60
          + (parseNat ((parts.drop 1).headD []) : ℚ)
          + (parseNat ((parts.drop 2).headD []) : ℚ) / 60) / 10) 100
      else min 0 100
  | .file_activity _ c => min ((c : ℚ) / 5) 100

/-- `ArketicAssistant._get_priority_level`: `"Yüksek"`/`"Orta"`/`"Düşük"`
are the code's High/Medium/Low labels. -/
def get_priority_level (score : ℚ) : String :=
  if 50 ≤ score then "Yüksek" else if 20 ≤ score then "Orta" else "Düşük"

/-- A scored recommendation as assembled by
`ArketicAssistant.get_automation_recommendations`. -/
structure Recommendation where
  candidate : AutoCandidate
  score : ℚ
  priority : String
deriving DecidableEq

/-- Sort key of `scored_recommendations.sort(key=..., reverse=True)`. -/
def recGe (x y : Recommendation) : Prop := y.score ≤ x.score

instance : DecidableRel recGe :=
  fun x y => inferInstanceAs (Decidable (y.score ≤ x.score))

instance : IsTotal Recommendation recGe := ⟨fun a b => le_total b.score a.score⟩

instance : IsTrans Recommendation recGe := ⟨fun _ _ _ h h2 => le_trans h2 h⟩

/-- `ArketicAssistant.get_automation_recommendations`: score and
prioritise each candidate, then sort descending by score (stable). -/
def get_automation_recommendations (candidates : List AutoCandidate) :
    List Recommendation :=
  insertionSort recGe
    (candidates.map (fun c =>
      ⟨c, calculate_automation_score c,
        get_priority_level (calculate_automation_score c)⟩))

/-- `utils.time_utils.format_duration`: zero-padded `HH:MM:SS`. -/
def pad2 (n : ℕ) : String := if n < 10 then "0" ++ toString n else toString n

/-- `format_duration(seconds)` = `HH:MM:SS` via `divmod`. -/
def format_duration (seconds : ℕ) : String :=
  pad2 (seconds / 3600) ++ ":" ++ pad2 ((seconds % 3600) / 60)
    ++ ":" ++ pad2 (seconds % 60)

/-- Claim C4: the scorer's formulas, the 100-point cap, the spec's four
concrete score examples (45 minutes is the formatted duration
`"00:45:00"`), the priority mapping (`"Yüksek"`/`"Orta"`/`"Düşük"` being
the code's High/Medium/Low), and descending-by-score order of the
returned recommendations. -/
theorem c4_scorer_formulas :
    (∀ ls, calculate_automation_score (.sequence 8 ls) = 80
      ∧ get_priority_level (calculate_automation_score (.sequence 8 ls))
          = "Yüksek") ∧
    (∀ ls, calculate_automation_score (.sequence 15 ls) = 100) ∧
    (∀ a, calculate_automation_score (.app_usage a "00:45:00") = 9/2
      ∧ get_priority_level (calculate_automation_score (.app_usage a "00:45:00"))
          = "Düşük") ∧
    format_duration 2700 = "00:45:00" ∧
    (∀ e, calculate_automation_score (.file_activity e 30) = 6
      ∧ get_priority_level (calculate_automation_score (.file_activity e 30))
          = "Düşük") ∧
    (∀ f ls, calculate_automation_score (.sequence f ls)
        = min ((f : ℚ) * 10) 100) ∧
    (∀ e c, calculate_automation_score (.file_activity e c)
        = min ((c : ℚ) / 5) 100) ∧
    (∀ c, calculate_automation_score c ≤ 100) ∧
    (∀ q : ℚ, 50 ≤ q → get_priority_level q = "Yüksek") ∧
    (∀ q : ℚ, 20 ≤ q → q < 50 → get_priority_level q = "Orta") ∧
    (∀ q : ℚ, q < 20 → get_priority_level q = "Düşük") ∧
    (∀ cands, (get_automation_recommendations cands).Pairwise recGe) := by
  refine ⟨?_, ?_, ?_, by decide, ?_, fun f ls => rfl, fun e c => rfl,
    ?_, ?_, ?_, ?_, ?_⟩
  · intro ls
    have h : calculate_automation_score (.sequence 8 ls) = 80 := by
      simp only [calculate_automation_score]
      rw [min_eq_left (by norm_num : ((8 : ℕ) : ℚ) * 10 ≤ 100)]
      norm_num
    refine ⟨h, ?_⟩
    rw [h, get_priority_level, if_pos (by norm_num : (50 : ℚ) ≤ 80)]
  · intro ls
    simp only [calculate_automation_score]
    rw [min_eq_right (by norm_num : (100 : ℚ) ≤ ((15 : ℕ) : ℚ) * 10)]
  · intro a
    have h : calculate_automation_score (.app_usage a "00:45:00") = 9/2 := by
      simp only [calculate_automation_score]
      rw [show splitOnColon ("00:45:00".data)
            = [['0', '0'], ['4', '5'], ['0', '0']] from by decide]
      simp only [List.length_cons, List.length_nil, List.headD_cons,
        List.drop_succ_cons, List.drop_zero, if_pos rfl]
      rw [show parseNat ['0', '0'] = 0 from by decide,
        show parseNat ['4', '5'] = 45 from by decide]
      rw [min_eq_left (by norm_num)]
      norm_num
    refine ⟨h, ?_⟩
    rw [h, get_priority_level, if_neg (by norm_num), if_neg (by norm_num)]
  · intro e
    have h : calculate_automation_score (.file_activity e 30) = 6 := by
      simp only [calculate_automation_score]
      rw [min_eq_left (by norm_num : ((30 : ℕ) : ℚ) / 5 ≤ 100)]
      norm_num
    refine ⟨h, ?_⟩
    rw [h, get_priority_level, if_neg (by norm_num), if_neg (by norm_num)]
  · intro c
    cases c with
    | sequence f ls => exact min_le_right _ _
    | app_usage a dur =>
        simp only [calculate_automation_score]
        split_ifs <;> exact min_le_right _ _
    | file_activity e cnt => exact min_le_right _ _
  · intro q h
    simp [get_priority_level, h]
  · intro q h1 h2
    rw [get_priority_level, if_neg (by linarith), if_pos h1]
  · intro q h
    rw [get_priority_level, if_neg (by linarith), if_neg (by linarith)]
  · intro cands
    exact sorted_insertionSort recGe _

/-- Witness for `c4_scorer_formulas`: the priority mapping applied at the
concrete scores 75, 30 and 9/2. -/
theorem c4_scorer_formulas_witness :
    get_priority_level 75 = "Yüksek" ∧ get_priority_level 30 = "Orta" ∧
    get_priority_level (9/2) = "Düşük" :=
  ⟨c4_scorer_formulas.2.2.2.2.2.2.2.2.1 75 (by norm_num),
   c4_scorer_formulas.2.2.2.2.2.2.2.2.2.1 30 (by norm_num) (by norm_num),
   c4_scorer_formulas.2.2.2.2.2.2.2.2.2.2.1 (9/2) (by norm_num)⟩

/-! ## Candidate construction (`Analyzer.identify_automation_candidates`,
claim C10) -/

/-- Sort key of `sorted(app_usage.items(), key=lambda x: x[1],
reverse=True)`: descending comparison of the *formatted duration
strings* (Python compares strings by codepoint). -/
def valGe (p q : String × String) : Prop := strLe q.2 p.2

instance : DecidableRel valGe :=
  fun p q => inferInstanceAs (Decidable (strLe q.2 p.2))

instance : IsTotal (String × String) valGe :=
  ⟨fun a b => (strLe_total b.2 a.2).elim Or.inl Or.inr⟩

instance : IsTrans (String × String) valGe :=
  ⟨fun _ _ _ h h2 => strLe_trans h2 h⟩

/-- `Analyzer.identify_automation_candidates`, parametrised over the
three analysis results it combines: the mined `frequent_sequences`, the
formatted `analyze_app_usage` dict (as `(application, "HH:MM:SS")` items
in key order) and the `activity_counts` of `analyze_file_activities`
(`(event_type, count)` items; the `{}`/missing-key guard of the source
coincides with the empty list).  It takes the first 5 sequences, the top
3 applications by formatted-duration string, and every file event type
with `count > 10` (no cap). -/
def identify_automation_candidates (frequent_sequences : List (List String × ℕ))
    (app_usage : List (String × String))
    (file_activity_counts : List (String × ℕ)) : List AutoCandidate :=
  ((frequent_sequences.take 5).map (fun p => AutoCandidate.sequence p.2 p.1))
    ++ (if app_usage.isEmpty then [] else
        ((insertionSort valGe app_usage).take 3).map
          (fun p => AutoCandidate.app_usage p.1 p.2))
    ++ ((file_activity_counts.filter (fun p => decide (10 < p.2))).map
        (fun p => AutoCandidate.file_activity p.1 p.2))

/-- Discriminator for `candidate["type"] == "sequence"`. -/
def isSequenceCand : AutoCandidate → Bool
  | .sequence _ _ => true
  | _ => false

/-- Discriminator for `candidate["type"] == "app_usage"`. -/
def isAppUsageCand : AutoCandidate → Bool
  | .app_usage _ _ => true
  | _ => false

/-- The formatted duration carried by an `app_usage` candidate. -/
def candDuration : AutoCandidate → String
  | .app_usage _ d => d
  | _ => ""

lemma filter_seq_app_nil (fs : List (List String × ℕ)) :
    ((fs.take 5).map (fun p => AutoCandidate.sequence p.2 p.1)).filter
      isAppUsageCand = [] := by
  rw [List.filter_eq_nil_iff]
  intro a ha
  rcases List.mem_map.mp ha with ⟨p, _, rfl⟩
  simp [isAppUsageCand]

lemma filter_file_app_nil (fc : List (String × ℕ)) :
    ((fc.filter (fun p => decide (10 < p.2))).map
      (fun p => AutoCandidate.file_activity p.1 p.2)).filter isAppUsageCand
      = [] := by
  rw [List.filter_eq_nil_iff]
  intro a ha
  rcases List.mem_map.mp ha with ⟨p, _, rfl⟩
  simp [isAppUsageCand]

/-- The `app_usage` candidates of a run, extracted by filtering. -/
lemma filter_app_eq (fs : List (List String × ℕ)) (au : List (String × String))
    (fc : List (String × ℕ)) :
    (identify_automation_candidates fs au fc).filter isAppUsageCand
      = (if au.isEmpty then [] else
          ((insertionSort valGe au).take 3).map
            (fun p => AutoCandidate.app_usage p.1 p.2)) := by
  rw [identify_automation_candidates, List.filter_append, List.filter_append,
    filter_seq_app_nil, filter_file_app_nil, List.nil_append, List.append_nil]
  by_cases h : au.isEmpty
  · simp [h]
  · rw [if_neg h, List.filter_eq_self]
    intro a ha
    rcases List.mem_map.mp ha with ⟨p, _, rfl⟩
    simp [isAppUsageCand]

/-- Claim C10: at most 5 sequence candidates; at most 3 app-usage
candidates (exactly 3 as soon as at least 3 applications appear, ranked
descending by the formatted duration string); every file-activity
candidate needs its count to exceed 10 and, conversely, every event type
whose count exceeds 10 yields a candidate (no cap on their number). -/
theorem c10_candidate_caps (fs : List (List String × ℕ))
    (au : List (String × String)) (fc : List (String × ℕ)) :
    ((identify_automation_candidates fs au fc).filter isSequenceCand).length ≤ 5 ∧
    ((identify_automation_candidates fs au fc).filter isAppUsageCand).length ≤ 3 ∧
    (3 ≤ au.length →
      ((identify_automation_candidates fs au fc).filter isAppUsageCand).length
        = 3) ∧
    ((identify_automation_candidates fs au fc).filter isAppUsageCand).Pairwise
      (fun x y => strLe (candDuration y) (candDuration x)) ∧
    (∀ e c, AutoCandidate.file_activity e c
        ∈ identify_automation_candidates fs au fc → 10 < c) ∧
    (∀ e c, (e, c) ∈ fc → 10 < c →
      AutoCandidate.file_activity e c
        ∈ identify_automation_candidates fs au fc) := by
  refine ⟨?_, ?_, ?_, ?_, ?_, ?_⟩
  · have h : ((identify_automation_candidates fs au fc).filter
        isSequenceCand).length
        ≤ ((fs.take 5).map (fun p => AutoCandidate.sequence p.2 p.1)).length
          := by
      rw [identify_automation_candidates, List.filter_append,
        List.filter_append, List.length_append, List.length_append]
      have h1 := List.length_filter_le isSequenceCand
        ((fs.take 5).map (fun p => AutoCandidate.sequence p.2 p.1))
      have h2 : ((if au.isEmpty then [] else
          ((insertionSort valGe au).take 3).map
            (fun p => AutoCandidate.app_usage p.1 p.2)).filter
          isSequenceCand).length = 0 := by
        by_cases hau : au.isEmpty
        · simp [hau]
        · rw [if_neg hau, List.length_eq_zero, List.filter_eq_nil_iff]
          intro a ha
          rcases List.mem_map.mp ha with ⟨p, _, rfl⟩
          simp [isSequenceCand]
      have h3 : (((fc.filter (fun p => decide (10 < p.2))).map
          (fun p => AutoCandidate.file_activity p.1 p.2)).filter
          isSequenceCand).length = 0 := by
        rw [List.length_eq_zero, List.filter_eq_nil_iff]
        intro a ha
        rcases List.mem_map.mp ha with ⟨p, _, rfl⟩
        simp [isSequenceCand]
      omega
    refine le_trans h ?_
    rw [List.length_map, List.length_take]
    omega
  · rw [filter_app_eq]
    by_cases hau : au.isEmpty
    · simp [hau]
    · rw [if_neg hau, List.length_map, List.length_take]
      omega
  · intro hlen
    rw [filter_app_eq]
    have hau : ¬ au.isEmpty := by
      cases au with
      | nil => simp at hlen
      | cons a l => simp
    rw [if_neg hau, List.length_map, List.length_take, length_insertionSort]
    omega
  · rw [filter_app_eq]
    by_cases hau : au.isEmpty
    · simp [hau]
    · rw [if_neg hau]
      have hsorted : ((insertionSort valGe au).take 3).Pairwise valGe :=
        (sorted_insertionSort valGe au).sublist (List.take_sublist 3 _)
      rw [List.pairwise_map]
      exact hsorted.imp (fun h => h)
  · intro e c hmem
    rw [identify_automation_candidates] at hmem
    rcases List.mem_append.mp hmem with hm | hm
    · rcases List.mem_append.mp hm with hm2 | hm2
      · rcases List.mem_map.mp hm2 with ⟨p, _, hpe⟩
        exact absurd hpe (by simp)
      · by_cases hau : au.isEmpty
        · rw [if_pos hau] at hm2
          simp at hm2
        · rw [if_neg hau] at hm2
          rcases List.mem_map.mp hm2 with ⟨p, _, hpe⟩
          exact absurd hpe (by simp)
    · rcases List.mem_map.mp hm with ⟨p, hpmem, hpe⟩
      have hp2 := (List.mem_filter.mp hpmem).2
      injection hpe with h1 h2
      rw [← h2]
      exact of_decide_eq_true hp2
  · intro e c hmem hgt
    rw [identify_automation_candidates]
    refine List.mem_append.mpr (Or.inr ?_)
    refine List.mem_map.mpr ⟨(e, c), ?_, rfl⟩
    exact List.mem_filter.mpr ⟨hmem, decide_eq_true hgt⟩

/-- Witness for `c10_candidate_caps` at concrete analysis results with
four applications and one qualifying file event type. -/
theorem c10_candidate_caps_witness :
    ((identify_automation_candidates [] [("a", "01:00:00"), ("b", "02:00:00"),
        ("c", "00:30:00"), ("d", "03:00:00")] [("created", 12)]).filter
      isAppUsageCand).length = 3 ∧
    AutoCandidate.file_activity "created" 12
      ∈ identify_automation_candidates [] [("a", "01:00:00"), ("b", "02:00:00"),
          ("c", "00:30:00"), ("d", "03:00:00")] [("created", 12)] :=
  ⟨(c10_candidate_caps [] [("a", "01:00:00"), ("b", "02:00:00"),
      ("c", "00:30:00"), ("d", "03:00:00")] [("created", 12)]).2.2.1
      (by decide),
   (c10_candidate_caps [] [("a", "01:00:00"), ("b", "02:00:00"),
      ("c", "00:30:00"), ("d", "03:00:00")] [("created", 12)]).2.2.2.2.2
      "created" 12 (by decide) (by decide)⟩

end TaskMining
